import Mathlib

/-!
# eslogrus: the Elasticsearch hook for logrus

A shallow embedding of `hook.go` and a verification of its documented
behaviour.  Go names are kept: `time.Time`, `logrus.Entry`, `esapi.Response`,
`newHookFuncAndFireFunc`, `createMessage`, `syncFireFunc`, ...

Conventions of the embedding.

* A Go `(value, error)` result of the backend client is an `Except`.
* Effects are explicit: every function that talks to the outside takes a
  `World` and returns the new one.  The `World` records, in order, the
  requests handed to the backend client and counts the invocations of the
  index-name resolver.
* A Go `func() string` may answer differently on every call (a rolling,
  date-based index name); an `IndexNameFunc` is therefore the sequence of its
  answers, indexed by the number of earlier invocations.
* `*logrus.Entry` is a pointer: functions that write through it return the
  entry as it is afterwards.
-/

namespace eslogrus

/-! ## Collaborator types -/

/-- A Go `error` value, told apart by its `Error()` text. -/
structure GoError where
  msg : String
deriving DecidableEq, Repr

/-- The method `Error()` of the `error` interface. -/
def GoError.Error (e : GoError) : String := e.msg

/-- Package variable `ErrCannotCreateIndex = fmt.Errorf("cannot create index")`. -/
def ErrCannotCreateIndex : GoError := ⟨"cannot create index"⟩

/-- Constant `http.StatusNotFound`. -/
def http.StatusNotFound : Int := 404

/-- Type `esapi.Response`: the status line and the body of a backend answer. -/
structure esapi.Response where
  StatusCode : Int
  Body : String
deriving DecidableEq, Repr

/-- Method `(*esapi.Response).IsError`: `StatusCode > 299`. -/
def esapi.Response.IsError (r : esapi.Response) : Bool := decide (r.StatusCode > 299)

/-- Type `esapi.IndexRequest`, with the two fields the hook sets. -/
structure esapi.IndexRequest where
  Index : String
  Body : String
deriving DecidableEq, Repr

/-- The operations of `*elasticsearch.Client` the hook uses: `Indices.Exists`,
`Indices.Create` and the transport behind `IndexRequest.Do`.  Each either
fails with an error (no response) or yields a response of any status. -/
structure elasticsearch.Client where
  IndicesExists : List String → Except GoError esapi.Response
  IndicesCreate : String → Except GoError esapi.Response
  Index : esapi.IndexRequest → Except GoError esapi.Response

/-- One observable step against the backend client. -/
inductive Call where
  | indicesExists (names : List String)
  | indicesCreate (name : String)
  | indexDo (req : esapi.IndexRequest)
  | bodyClose
deriving DecidableEq, Repr

/-- What the outside has seen so far. -/
structure World where
  /-- How often the index-name resolver has been invoked. -/
  resolved : Nat
  /-- The steps taken against the backend client, oldest first. -/
  calls : List Call
deriving DecidableEq, Repr

/-- Type `IndexNameFunc func() string`: the answer of the invocation that has
`k` invocations before it. -/
abbrev IndexNameFunc := Nat → String

/-- One invocation `indexFunc()`. -/
def IndexNameFunc.call (f : IndexNameFunc) (w : World) : String × World :=
  (f w.resolved, { w with resolved := w.resolved + 1 })

/-- The state of a `context.Context` made by `context.WithCancel`. -/
structure context.Context where
  cancelled : Bool
deriving DecidableEq, Repr

/-- The context `context.WithCancel(context.TODO())` returns. -/
def context.WithCancel : context.Context := ⟨false⟩

/-- A `context.CancelFunc` applied to its context: the first call cancels,
later calls do nothing. -/
def context.Context.cancel (c : context.Context) : context.Context :=
  if c.cancelled then c else ⟨true⟩

/-! ## logrus -/

/-- Type `logrus.Level` (`uint32`). -/
abbrev logrus.Level := Nat

/-- Method `logrus.Level.String`: the seven level names, `"unknown"` for any
other number. -/
def logrus.Level.String (level : logrus.Level) : String :=
  match level with
  | 0 => "panic"
  | 1 => "fatal"
  | 2 => "error"
  | 3 => "warning"
  | 4 => "info"
  | 5 => "debug"
  | 6 => "trace"
  | _ => "unknown"

/-- Constant `logrus.WarnLevel`. -/
def logrus.WarnLevel : logrus.Level := 3

/-- A value of type `interface{}` held in `logrus.Fields`. -/
inductive Value where
  /-- The nil interface value. -/
  | null
  | str (s : String)
  | num (n : Int)
  | bool (b : Bool)
  /-- A non-nil value whose dynamic type implements `error`. -/
  | err (e : GoError)
  /-- A channel: a value `encoding/json` cannot encode. -/
  | chan
  /-- A non-nil value of any other dynamic type. -/
  | other (tag : Nat)
deriving DecidableEq, Repr

/-- Type `logrus.Fields` (`map[string]interface{}`), as an association list. -/
abbrev logrus.Fields := List (String × Value)

/-- Map index `v, ok := m[k]`. -/
def logrus.Fields.lookup : logrus.Fields → String → Option Value
  | [], _ => none
  | (k1, v1) :: rest, k => if k1 = k then some v1 else logrus.Fields.lookup rest k

/-- Map assignment `m[k] = v`. -/
def logrus.Fields.assign : logrus.Fields → String → Value → logrus.Fields
  | [], k, v => [(k, v)]
  | (k1, v1) :: rest, k, v =>
    if k1 = k then (k, v) :: rest else (k1, v1) :: logrus.Fields.assign rest k v

/-- Variable `logrus.ErrorKey`. -/
def logrus.ErrorKey : String := "error"

/-- Function `strings.ToUpper`, on the ASCII letters. -/
def strings.ToUpper (s : String) : String := String.mk (s.data.map Char.toUpper)

/-! ## Package `time`

`createMessage` calls `entry.Time.UTC().Format(time.RFC3339Nano)`.  The part of
Go's `time` package behind that call, and behind reading the text back with
`time.Parse(time.RFC3339Nano, ·)`, is modelled here on mathematical integers:
the proleptic Gregorian calendar Go uses, with days counted from
0001-01-01 (Go's internal epoch). -/

/-- Type `time.Time`: an instant, in nanoseconds since 1970-01-01T00:00:00Z,
and a location, reduced to its offset east of UTC in seconds at that instant. -/
structure time.Time where
  unixNano : Int
  offset : Int
deriving DecidableEq, Repr

/-- Method `Time.UTC`: the same instant, located in UTC. -/
def time.Time.UTC (t : time.Time) : time.Time := { t with offset := 0 }

/-- Function `isLeap` of package `time`. -/
def time.isLeap (year : Int) : Bool :=
  year % 4 == 0 && (year % 100 != 0 || year % 400 == 0)

/-- Table `daysBefore`: the days of a non-leap year before month `m + 1`. -/
def time.daysBefore (m : Nat) : Nat :=
  [0, 31, 59, 90, 120, 151, 181, 212, 243, 273, 304, 334, 365].getD m 0

/-- Function `absDate` with `full` false: the year of the day that lies
`days` days after 0001-01-01, and the days of that year before it. -/
def time.absYday (days : Int) : Int × Nat :=
  -- 400-year cycles
  let n400 := days / 146097
  let d := days - 146097 * n400
  -- 100-year cycles; the last one is a day longer
  let n100 := d / 36524
  let n100 := n100 - n100 / 4
  let d := d - 36524 * n100
  -- 4-year cycles
  let n4 := d / 1461
  let d := d - 1461 * n4
  -- years of a 4-year cycle; the last one is a day longer
  let n1 := d / 365
  let n1 := n1 - n1 / 4
  let d := d - 365 * n1
  (400 * n400 + 100 * n100 + 4 * n4 + n1 + 1, d.toNat)

/-- The second half of `absDate`: month and day of month of the day that has
`yday` days of its year before it. -/
def time.monthDay (leap : Bool) (yday : Nat) : Nat × Nat :=
  if leap && yday == 59 then (2, 29)
  else
    let day := if leap && decide (yday > 59) then yday - 1 else yday
    -- estimate the month as if each had 31 days, then adjust
    let month := day / 31
    let last := time.daysBefore (month + 1)
    if day ≥ last then (month + 2, day - last + 1)
    else (month + 1, day - time.daysBefore month + 1)

/-- Function `absDate`: year, month and day of month of the day that lies
`days` days after 0001-01-01. -/
def time.absDate (days : Int) : Int × Nat × Nat :=
  let (year, yday) := time.absYday days
  (year, time.monthDay (time.isLeap year) yday)

/-- The character of a decimal digit, `byte(48 + u)`. -/
def time.digit (u : Nat) : Char := Char.ofNat (48 + u)

/-- The loop of `appendInt` that writes `u` in decimal; `fuel` bounds the
number of rounds, and `u` rounds are always enough. -/
def time.decimal : Nat → Nat → List Char
  | 0, u => [time.digit (u % 10)]
  | fuel + 1, u =>
    if u < 10 then [time.digit u] else time.decimal fuel (u / 10) ++ [time.digit (u % 10)]

/-- Function `appendInt`: the decimal form of `x`, the digits padded with
leading zeros to `width`, a minus sign in front when `x` is negative. -/
def time.appendInt (x : Int) (width : Nat) : List Char :=
  let u := x.natAbs
  let ds := time.decimal u u
  (if x < 0 then ['-'] else []) ++ List.replicate (width - ds.length) '0' ++ ds

/-- Removal of the trailing zeros of a run of digits. -/
def time.trimZeros : List Char → List Char
  | [] => []
  | c :: cs =>
    match time.trimZeros cs with
    | [] => if c = '0' then [] else [c]
    | r => c :: r

/-- Function `formatNano` for the layout element `.999999999`: nothing for a
whole second, else a point and the nine digits without their trailing zeros. -/
def time.formatNano (nanosec : Nat) : List Char :=
  match time.trimZeros (time.appendInt nanosec 9) with
  | [] => []
  | ds => '.' :: ds

/-- The text `t.Format(time.RFC3339Nano)`, layout
`2006-01-02T15:04:05.999999999Z07:00`, as a list of characters. -/
def time.Time.appendFormatRFC3339Nano (t : time.Time) : List Char :=
  let sec := t.unixNano / 1000000000
  let nsec := (t.unixNano % 1000000000).toNat
  let abs := sec + t.offset
  let (year, month, day) := time.absDate (abs / 86400 + 719162)
  let clock := (abs % 86400).toNat
  let hour := clock / 3600
  let min := clock % 3600 / 60
  let s := clock % 60
  time.appendInt year 4 ++ ['-'] ++ time.appendInt month 2 ++ ['-'] ++ time.appendInt day 2
    ++ ['T'] ++ time.appendInt hour 2 ++ [':'] ++ time.appendInt min 2 ++ [':']
    ++ time.appendInt s 2 ++ time.formatNano nsec
    ++ (if t.offset = 0 then ['Z']
        else
          let zone := Int.tdiv t.offset 60
          (if zone < 0 then ['-'] else ['+']) ++ time.appendInt (zone.natAbs / 60) 2
            ++ [':'] ++ time.appendInt (zone.natAbs % 60) 2)

/-- Method `Time.Format` at the layout `time.RFC3339Nano`. -/
def time.Time.FormatRFC3339Nano (t : time.Time) : String :=
  String.mk t.appendFormatRFC3339Nano

/-- Method `Time.Year`: the year of the instant in the time's location. -/
def time.Time.Year (t : time.Time) : Int :=
  (time.absDate ((t.unixNano / 1000000000 + t.offset) / 86400 + 719162)).1

/-- The last `w` decimal digits of `u`, most significant first: what
`appendInt` writes at width `w` for a number below `10 ^ w`. -/
def time.fixedDigits : Nat → Nat → List Char
  | 0, _ => []
  | w + 1, u => time.fixedDigits w (u / 10) ++ [time.digit (u % 10)]

/-- Function `isDigit`. -/
def time.isDigit (c : Char) : Bool := decide ('0' ≤ c) && decide (c ≤ '9')

/-- The number a run of decimal digits denotes, most significant digit first. -/
def time.digitsVal (s : List Char) : Nat :=
  s.foldl (fun x c => x * 10 + (c.toNat - 48)) 0

/-- Local function `parseUint` of `parseRFC3339`: the number `s` denotes when
`s` holds digits only and the number lies in `lo..hi`. -/
def time.parseUint (s : List Char) (lo hi : Nat) : Option Nat :=
  if s.all time.isDigit then
    let x := time.digitsVal s
    if x < lo ∨ hi < x then none else some x
  else none

/-- The slice `s[i:j]`. -/
def time.slice (s : List Char) (i j : Nat) : List Char := (s.drop i).take (j - i)

/-- Function `daysIn`. -/
def time.daysIn (month : Nat) (year : Int) : Nat :=
  if month = 2 ∧ time.isLeap year then 29
  else time.daysBefore month - time.daysBefore (month - 1)

/-- Function `daysSinceEpoch`: the days from 0001-01-01 to 1 January of `year`. -/
def time.daysSinceEpoch (year : Int) : Int :=
  let y := year - 1
  let n400 := y / 400
  let y := y - 400 * n400
  let n100 := y / 100
  let y := y - 100 * n100
  let n4 := y / 4
  let y := y - 4 * n4
  146097 * n400 + 36524 * n100 + 1461 * n4 + 365 * y

/-- Function `Date` in UTC, on fields that are in range (as `parseRFC3339`
passes them): the instant in nanoseconds since the Unix epoch. -/
def time.Date (year : Int) (month day hour min sec nsec : Nat) : Int :=
  let d := time.daysSinceEpoch year + time.daysBefore (month - 1)
    + (if time.isLeap year ∧ month ≥ 3 then 1 else 0) + (day - 1 : Nat)
  let unix := (d - 719162) * 86400 + (hour * 3600 + min * 60 + sec : Nat)
  unix * 1000000000 + nsec

/-- Function `parseNanoseconds`: the fraction `value[1:nbytes]`, cut to nine
digits, scaled to nanoseconds. -/
def time.parseNanoseconds (value : List Char) (nbytes : Nat) : Nat :=
  let nbytes := if nbytes > 10 then 10 else nbytes
  time.digitsVal (time.slice value 1 nbytes) * 10 ^ (10 - nbytes)

/-- The fractional second of `parseRFC3339`: when `s` starts with a point and
a digit, the nanoseconds its run of digits denotes and what follows the run;
else zero and `s`. -/
def time.parseFraction (s : List Char) : Nat × List Char :=
  if s.length ≥ 2 ∧ s.get? 0 = some '.' ∧ (s.get? 1).any time.isDigit = true then
    let n := 1 + ((s.drop 1).takeWhile time.isDigit).length
    (time.parseNanoseconds s n, s.drop n)
  else (0, s)

/-- The time zone of `parseRFC3339`: `s` is `Z`, or a sign, two digits of
hours, a colon and two digits of minutes; `t` is the instant the fields
before it denote in UTC. -/
def time.parseZone (t : Int) (s : List Char) : Option time.Time :=
  if s = ['Z'] then some ⟨t, 0⟩
  else if s.length ≠ 6 then none
  else
    match time.parseUint (time.slice s 1 3) 0 23, time.parseUint (time.slice s 4 6) 0 59 with
    | some hr, some mm =>
      if ¬ ((s.get? 0 = some '-' ∨ s.get? 0 = some '+') ∧ s.get? 3 = some ':') then none
      else
        let zoneOffset : Int := (hr * 60 + mm) * 60
        let zoneOffset := if s.get? 0 = some '-' then - zoneOffset else zoneOffset
        some ⟨t - zoneOffset * 1000000000, zoneOffset⟩
    | _, _ => none

/-- Function `parseRFC3339`, the strict reader of RFC 3339 texts that
`time.Parse` tries first at the layouts `RFC3339` and `RFC3339Nano`: `none`
where it gives up. -/
def time.parseRFC3339 (s : List Char) : Option time.Time :=
  if s.length < 19 then none
  else
    match time.parseUint (time.slice s 0 4) 0 9999, time.parseUint (time.slice s 5 7) 1 12 with
    | some year, some month =>
      match time.parseUint (time.slice s 8 10) 1 (time.daysIn month year),
            time.parseUint (time.slice s 11 13) 0 23,
            time.parseUint (time.slice s 14 16) 0 59,
            time.parseUint (time.slice s 17 19) 0 59 with
      | some day, some hour, some min, some sec =>
        if ¬ (s.get? 4 = some '-' ∧ s.get? 7 = some '-' ∧ s.get? 10 = some 'T'
              ∧ s.get? 13 = some ':' ∧ s.get? 16 = some ':') then none
        else
          let (nsec, s) := time.parseFraction (s.drop 19)
          time.parseZone (time.Date year month day hour min sec nsec) s
      | _, _, _, _ => none
    | _, _ => none

/-- Function `skip` at a layout literal of one character: the value after
that character. -/
def time.skip (value : List Char) (c : Char) : Option (List Char) :=
  match value with
  | v :: rest => if v = c then some rest else none
  | [] => none

/-- Function `getnum`: a number of two digits, or of one digit when `fixed`
is false and no second digit follows, and the value after it. -/
def time.getnum (s : List Char) (fixed : Bool) : Option (Nat × List Char) :=
  match s with
  | a :: rest =>
    if time.isDigit a then
      match rest with
      | b :: rest2 =>
        if time.isDigit b then some ((a.toNat - 48) * 10 + (b.toNat - 48), rest2)
        else if fixed then none
        else some (a.toNat - 48, rest)
      | [] => if fixed then none else some (a.toNat - 48, rest)
    else none
  | [] => none

/-- The layout element `2006` of `parse`: four characters, the first a digit,
that `atoi` accepts. -/
def time.parseLongYear (value : List Char) : Option (Nat × List Char) :=
  if value.length < 4 ∨ value.head?.any time.isDigit = false then none
  else if (value.take 4).all time.isDigit = false then none
  else some (time.digitsVal (value.take 4), value.drop 4)

/-- A literal of the layout followed by a number element of `parse`: `skip`,
then `getnum`, then the range test `lo ≤ n ≤ hi`. -/
def time.parseField (value : List Char) (c : Char) (fixed : Bool) (lo hi : Nat) :
    Option (Nat × List Char) :=
  match time.skip value c with
  | none => none
  | some value =>
    match time.getnum value fixed with
    | none => none
    | some (n, value) => if n < lo ∨ hi < n then none else some (n, value)

/-- The layout element `.999999999` of `parse`: a point or a comma and a run
of digits, or nothing. -/
def time.parseFracSecond (value : List Char) : Nat × List Char :=
  if value.length < 2 ∨ ¬ (value.get? 0 = some '.' ∨ value.get? 0 = some ',')
      ∨ (value.get? 1).any time.isDigit = false then (0, value)
  else
    (time.parseNanoseconds value (1 + ((value.drop 1).takeWhile time.isDigit).length),
      value.drop (1 + ((value.drop 1).takeWhile time.isDigit).length))

/-- The layout element `Z07:00` of `parse`: the zone offset in seconds and
the value after the element. -/
def time.parseColonTZ (value : List Char) : Option (Int × List Char) :=
  if value.head? = some 'Z' then some (0, value.drop 1)
  else if value.length < 6 ∨ value.get? 3 ≠ some ':' then none
  else
    match time.getnum (time.slice value 1 3) true, time.getnum (time.slice value 4 6) true with
    | some (hr, _), some (mm, _) =>
      if hr > 24 ∨ mm > 60 then none
      else if value.get? 0 = some '+' then some ((((hr * 60 + mm) * 60 : Nat) : Int), value.drop 6)
      else if value.get? 0 = some '-' then
        some (- (((hr * 60 + mm) * 60 : Nat) : Int), value.drop 6)
      else none
    | _, _ => none

/-- Function `parse`, the general reader, run on the layout
`2006-01-02T15:04:05.999999999Z07:00`: element by element of the layout,
`none` at the first one the value does not match or is out of range for,
when text is left over at the end, and when the day is not one of the month. -/
def time.parse (value : List Char) : Option time.Time :=
  match time.parseLongYear value with
  | none => none
  | some (year, value) =>
  match time.parseField value '-' true 1 12 with
  | none => none
  | some (month, value) =>
  match time.parseField value '-' true 0 99 with
  | none => none
  | some (day, value) =>
  match time.parseField value 'T' false 0 23 with
  | none => none
  | some (hour, value) =>
  match time.parseField value ':' true 0 59 with
  | none => none
  | some (min, value) =>
  match time.parseField value ':' true 0 59 with
  | none => none
  | some (sec, value) =>
  match time.parseFracSecond value with
  | (nsec, value) =>
  match time.parseColonTZ value with
  | none => none
  | some (zoneOffset, value) =>
    if value ≠ [] then none
    else if day < 1 ∨ day > time.daysIn month year then none
    else
      some ⟨time.Date year month day hour min sec nsec - zoneOffset * 1000000000, zoneOffset⟩

/-- Function `time.Parse` at the layout `time.RFC3339Nano`: the strict reader
`parseRFC3339` first and, where that one gives up, the general reader;
`none` is a parse error. -/
def time.ParseRFC3339Nano (value : String) : Option time.Time :=
  match time.parseRFC3339 value.data with
  | some t => some t
  | none => time.parse value.data

/-! ## The hook -/

/-- Type `logrus.Entry`, with the fields the hook reads. -/
structure logrus.Entry where
  Data : logrus.Fields
  Time : time.Time
  Level : logrus.Level
  Message : String
deriving DecidableEq, Repr

/-- Type `message`: the document written to the backend. -/
structure message where
  Host : String
  Timestamp : String
  Message : String
  Data : logrus.Fields
  Level : String
deriving DecidableEq, Repr

/-- The fields of `ElasticHook` other than `fireFunc`: what a `fireFunc`
receives as its `hook`.  The field `ctxCancel` is the cancel function of
`ctx`, `context.Context.cancel`. -/
structure HookFields where
  client : elasticsearch.Client
  host : String
  index : IndexNameFunc
  levels : List logrus.Level
  ctx : context.Context

/-- What a call of `Fire` leaves behind: the returned error (`none` is
`nil`), the entry as it is after the call, and the world. -/
structure FireResult where
  err : Option GoError
  entry : logrus.Entry
  world : World
deriving DecidableEq, Repr

/-- Type `fireFunc func(entry *logrus.Entry, hook *ElasticHook) error`. -/
abbrev fireFunc := logrus.Entry → HookFields → World → FireResult

/-- Type `ElasticHook`. -/
structure ElasticHook extends HookFields where
  fireFunc : fireFunc

/-- Function `createMessage`: the document, and the entry as the call leaves
it (the document's `Data` is the entry's map itself). -/
def createMessage (entry : logrus.Entry) (hook : HookFields) : message × logrus.Entry :=
  let level := logrus.Level.String entry.Level
  let entry :=
    match logrus.Fields.lookup entry.Data logrus.ErrorKey with
    | some e =>
      if e ≠ Value.null then
        match e with
        | Value.err err =>
          { entry with
            Data := logrus.Fields.assign entry.Data logrus.ErrorKey (Value.str err.Error) }
        | _ => entry
      else entry
    | none => entry
  ({ Host := hook.host
     Timestamp := entry.Time.UTC.FormatRFC3339Nano
     Message := entry.Message
     Data := entry.Data
     Level := strings.ToUpper level }, entry)

/-- Function `syncFireFunc`; `Marshal` is `json.Marshal` on a `*message`. -/
def syncFireFunc (Marshal : message → Except GoError String) : fireFunc :=
  fun entry hook w =>
    let (msg, entry) := createMessage entry hook
    match Marshal msg with
    | .error err => ⟨some err, entry, w⟩
    | .ok data =>
      let (index, w) := hook.index.call w
      let req : esapi.IndexRequest := { Index := index, Body := data }
      let w := { w with calls := w.calls ++ [Call.indexDo req] }
      match hook.client.Index req with
      | .error err => ⟨some err, entry, w⟩
      | .ok _ => ⟨none, entry, { w with calls := w.calls ++ [Call.bodyClose] }⟩

/-- Function `newHookFuncAndFireFunc`: the pair `(*ElasticHook, error)` it
returns (`none` is `nil`), and the world afterwards.  On the two failing
paths `cancel()` ends the context made at the top, which nothing returned
refers to. -/
def newHookFuncAndFireFunc (client : elasticsearch.Client) (host : String)
    (levels : List logrus.Level) (indexFunc : IndexNameFunc) (fire : fireFunc) (w : World) :
    (Option ElasticHook × Option GoError) × World :=
  let ctx := context.WithCancel
  let hook : ElasticHook :=
    { client := client, host := host, index := indexFunc, levels := levels, ctx := ctx,
      fireFunc := fire }
  let (name, w) := indexFunc.call w
  let w := { w with calls := w.calls ++ [Call.indicesExists [name]] }
  match client.IndicesExists [name] with
  | .error err => ((none, some err), w)
  | .ok indexExistsResp =>
    if indexExistsResp.StatusCode = http.StatusNotFound then
      let (name, w) := indexFunc.call w
      let w := { w with calls := w.calls ++ [Call.indicesCreate name] }
      match client.IndicesCreate name with
      | .error _ => ((none, some ErrCannotCreateIndex), w)
      | .ok createIndexResp =>
        if createIndexResp.IsError then ((none, some ErrCannotCreateIndex), w)
        else ((some hook, none), w)
    else ((some hook, none), w)

/-- Function `NewElasticHook`. -/
def NewElasticHook (Marshal : message → Except GoError String) (client : elasticsearch.Client)
    (host : String) (levels : List logrus.Level) (index : String) (w : World) :
    (Option ElasticHook × Option GoError) × World :=
  newHookFuncAndFireFunc client host levels (fun _ => index) (syncFireFunc Marshal) w

/-- Method `(*ElasticHook).Fire`. -/
def ElasticHook.Fire (hook : ElasticHook) (entry : logrus.Entry) (w : World) : FireResult :=
  hook.fireFunc entry hook.toHookFields w

/-- Method `(*ElasticHook).Levels`. -/
def ElasticHook.Levels (hook : ElasticHook) : List logrus.Level := hook.levels

/-- Method `(*ElasticHook).Cancel`: `hook.ctxCancel()`. -/
def ElasticHook.Cancel (hook : ElasticHook) : ElasticHook :=
  { hook with ctx := hook.ctx.cancel }

/-! ## Sample collaborators

Concrete backends, resolvers and entries, used to run the definitions. -/

/-- A backend double that answers every existence check with `ex`, every
create with `cr` and every write with `wr`. -/
def sample.client (ex cr wr : Except GoError esapi.Response) : elasticsearch.Client :=
  { IndicesExists := fun _ => ex, IndicesCreate := fun _ => cr, Index := fun _ => wr }

/-- A backend answer with the given status and an empty body. -/
def sample.status (code : Int) : Except GoError esapi.Response := .ok ⟨code, ""⟩

/-- A connection failure. -/
def sample.refused : GoError := ⟨"dial tcp 127.0.0.1:9200: connect: connection refused"⟩

/-- An encoder that, like `json.Marshal`, rejects a document holding a
channel; the text it returns for the others is a stand-in for the JSON. -/
def sample.Marshal (m : message) : Except GoError String :=
  if m.Data.any (fun kv => kv.2 = Value.chan) then .error ⟨"json: unsupported type: chan int"⟩
  else .ok m.Message

/-- A resolver whose name rolls over between its first and second call. -/
def sample.rolling : IndexNameFunc :=
  fun k => if k = 0 then "logs-2024.12.31" else "logs-2025.01.01"

/-- The world before anything has happened. -/
def sample.world : World := ⟨0, []⟩

/-- An entry at 2023-11-14T22:13:20.123456Z, written in a zone five and a half
hours east of UTC, with an error under the reserved key. -/
def sample.entry : logrus.Entry :=
  { Data := [("user", Value.str "ada"), ("error", Value.err ⟨"disk full"⟩)]
    Time := ⟨1700000000123456000, 19800⟩
    Level := logrus.WarnLevel
    Message := "write failed" }

/-- An entry whose payload holds a channel. -/
def sample.badEntry : logrus.Entry :=
  { sample.entry with Data := [("done", Value.chan)] }

/-- An entry at 10000-01-01T00:00:00Z, the first instant of the year 10000. -/
def sample.farEntry : logrus.Entry :=
  { sample.entry with Time := ⟨253402300800000000000, 0⟩ }

/-- A hook with the default delivery strategy over `sample.Marshal`. -/
def sample.hook (client : elasticsearch.Client) : ElasticHook :=
  { client := client, host := "web-1", index := fun _ => "logs", levels := [],
    ctx := context.WithCancel, fireFunc := syncFireFunc sample.Marshal }

/-! ## Construction -/

/-- C1: when the existence check answers 404 and the create call fails, either
at the transport or with an error status, construction returns a nil adapter
and exactly `ErrCannotCreateIndex`, whichever of the two happened; the same
holds for `NewElasticHook`. -/
theorem create_failure_is_ErrCannotCreateIndex (client : elasticsearch.Client) (host : String)
    (levels : List logrus.Level) (indexFunc : IndexNameFunc) (fire : fireFunc) (w : World)
    (resp : esapi.Response)
    (hexists : client.IndicesExists [indexFunc w.resolved] = .ok resp)
    (hstatus : resp.StatusCode = http.StatusNotFound)
    (hcreate : (∃ e, client.IndicesCreate (indexFunc (w.resolved + 1)) = .error e) ∨
      (∃ r, client.IndicesCreate (indexFunc (w.resolved + 1)) = .ok r ∧ r.IsError = true)) :
    (newHookFuncAndFireFunc client host levels indexFunc fire w).1
        = (none, some ErrCannotCreateIndex) ∧
      ∀ (Marshal : message → Except GoError String) (index : String),
        indexFunc = (fun _ => index) →
        (NewElasticHook Marshal client host levels index w).1
          = (none, some ErrCannotCreateIndex) := by
  have key : ∀ f : fireFunc, (newHookFuncAndFireFunc client host levels indexFunc f w).1
      = (none, some ErrCannotCreateIndex) := by
    intro f
    rcases hcreate with ⟨e, he⟩ | ⟨r, hr, hre⟩
    · simp [newHookFuncAndFireFunc, IndexNameFunc.call, hexists, hstatus, he]
    · simp [newHookFuncAndFireFunc, IndexNameFunc.call, hexists, hstatus, hr, hre]
  refine ⟨key fire, ?_⟩
  intro Marshal index hidx
  subst hidx
  exact key (syncFireFunc Marshal)

theorem create_failure_is_ErrCannotCreateIndex_witness :
    (newHookFuncAndFireFunc (sample.client (sample.status 404) (.error sample.refused)
        (sample.status 201)) "web-1" [] sample.rolling (syncFireFunc sample.Marshal)
        sample.world).1 = (none, some ErrCannotCreateIndex) ∧
    (newHookFuncAndFireFunc (sample.client (sample.status 404) (sample.status 400)
        (sample.status 201)) "web-1" [] sample.rolling (syncFireFunc sample.Marshal)
        sample.world).1 = (none, some ErrCannotCreateIndex) :=
  ⟨(create_failure_is_ErrCannotCreateIndex _ "web-1" [] sample.rolling _ sample.world
      ⟨404, ""⟩ rfl rfl (Or.inl ⟨sample.refused, rfl⟩)).1,
   (create_failure_is_ErrCannotCreateIndex _ "web-1" [] sample.rolling _ sample.world
      ⟨404, ""⟩ rfl rfl (Or.inr ⟨⟨400, ""⟩, rfl, by decide⟩)).1⟩

/-- C2: when the existence check itself fails with an error `e`, construction
returns a nil adapter and `e` itself, and the only request the backend has
received is that existence check: no create call is issued. -/
theorem exists_failure_is_returned (client : elasticsearch.Client) (host : String)
    (levels : List logrus.Level) (indexFunc : IndexNameFunc) (fire : fireFunc) (w : World)
    (e : GoError)
    (hexists : client.IndicesExists [indexFunc w.resolved] = .error e) :
    (newHookFuncAndFireFunc client host levels indexFunc fire w).1 = (none, some e) ∧
      (newHookFuncAndFireFunc client host levels indexFunc fire w).2.calls
        = w.calls ++ [Call.indicesExists [indexFunc w.resolved]] ∧
      ∀ name, Call.indicesCreate name ∈
          (newHookFuncAndFireFunc client host levels indexFunc fire w).2.calls →
        Call.indicesCreate name ∈ w.calls := by
  simp [newHookFuncAndFireFunc, IndexNameFunc.call, hexists]

theorem exists_failure_is_returned_witness :
    (newHookFuncAndFireFunc (sample.client (.error sample.refused) (sample.status 200)
        (sample.status 201)) "web-1" [] sample.rolling (syncFireFunc sample.Marshal)
        sample.world).1 = (none, some sample.refused) :=
  (exists_failure_is_returned _ "web-1" [] sample.rolling _ sample.world sample.refused rfl).1

/-- C3: when the existence check answers, construction succeeds (a non-nil
adapter, a nil error) in two cases: the status is not 404, and then no create
call is issued; or the status is 404 and the create call answers with a
status that is not an error. -/
theorem construction_succeeds (client : elasticsearch.Client) (host : String)
    (levels : List logrus.Level) (indexFunc : IndexNameFunc) (fire : fireFunc) (w : World)
    (resp : esapi.Response)
    (hexists : client.IndicesExists [indexFunc w.resolved] = .ok resp) :
    (resp.StatusCode ≠ http.StatusNotFound →
      (newHookFuncAndFireFunc client host levels indexFunc fire w).1.1.isSome = true ∧
      (newHookFuncAndFireFunc client host levels indexFunc fire w).1.2 = none ∧
      (newHookFuncAndFireFunc client host levels indexFunc fire w).2.calls
        = w.calls ++ [Call.indicesExists [indexFunc w.resolved]] ∧
      ∀ name, Call.indicesCreate name ∈
          (newHookFuncAndFireFunc client host levels indexFunc fire w).2.calls →
        Call.indicesCreate name ∈ w.calls) ∧
    (resp.StatusCode = http.StatusNotFound →
      ∀ r, client.IndicesCreate (indexFunc (w.resolved + 1)) = .ok r → r.IsError = false →
      (newHookFuncAndFireFunc client host levels indexFunc fire w).1.1.isSome = true ∧
      (newHookFuncAndFireFunc client host levels indexFunc fire w).1.2 = none) := by
  constructor
  · intro hne
    simp [newHookFuncAndFireFunc, IndexNameFunc.call, hexists, hne]
  · intro h404 r hr hre
    simp [newHookFuncAndFireFunc, IndexNameFunc.call, hexists, h404, hr, hre]

theorem construction_succeeds_witness :
    ((newHookFuncAndFireFunc (sample.client (sample.status 200) (sample.status 500)
        (sample.status 201)) "web-1" [] sample.rolling (syncFireFunc sample.Marshal)
        sample.world).1.1.isSome = true ∧
      (newHookFuncAndFireFunc (sample.client (sample.status 200) (sample.status 500)
        (sample.status 201)) "web-1" [] sample.rolling (syncFireFunc sample.Marshal)
        sample.world).2.calls = [Call.indicesExists ["logs-2024.12.31"]]) ∧
    (newHookFuncAndFireFunc (sample.client (sample.status 404) (sample.status 200)
        (sample.status 201)) "web-1" [] sample.rolling (syncFireFunc sample.Marshal)
        sample.world).1.1.isSome = true :=
  ⟨⟨((construction_succeeds (sample.client (sample.status 200) (sample.status 500)
        (sample.status 201)) "web-1" [] sample.rolling (syncFireFunc sample.Marshal)
        sample.world ⟨200, ""⟩ rfl).1 (by decide)).1,
    ((construction_succeeds (sample.client (sample.status 200) (sample.status 500)
        (sample.status 201)) "web-1" [] sample.rolling (syncFireFunc sample.Marshal)
        sample.world ⟨200, ""⟩ rfl).1 (by decide)).2.2.1⟩,
   ((construction_succeeds (sample.client (sample.status 404) (sample.status 200)
        (sample.status 201)) "web-1" [] sample.rolling (syncFireFunc sample.Marshal)
        sample.world ⟨404, ""⟩ rfl).2 rfl ⟨200, ""⟩ rfl (by decide)).1⟩

/-- The resolver is invoked once when the existence check fails or answers
with a status other than 404, and twice when it answers 404: the name checked
is the first answer, the name created the second. -/
theorem construction_world (client : elasticsearch.Client) (host : String)
    (levels : List logrus.Level) (indexFunc : IndexNameFunc) (fire : fireFunc) (w : World) :
    (newHookFuncAndFireFunc client host levels indexFunc fire w).2 =
      match client.IndicesExists [indexFunc w.resolved] with
      | .error _ => ⟨w.resolved + 1, w.calls ++ [Call.indicesExists [indexFunc w.resolved]]⟩
      | .ok resp =>
        if resp.StatusCode = http.StatusNotFound then
          ⟨w.resolved + 2, w.calls ++ [Call.indicesExists [indexFunc w.resolved],
            Call.indicesCreate (indexFunc (w.resolved + 1))]⟩
        else ⟨w.resolved + 1, w.calls ++ [Call.indicesExists [indexFunc w.resolved]]⟩ := by
  cases hex : client.IndicesExists [indexFunc w.resolved] with
  | error e => simp [newHookFuncAndFireFunc, IndexNameFunc.call, hex]
  | ok resp =>
    by_cases h404 : resp.StatusCode = http.StatusNotFound
    · cases hcr : client.IndicesCreate (indexFunc (w.resolved + 1)) with
      | error e => simp [newHookFuncAndFireFunc, IndexNameFunc.call, hex, h404, hcr]
      | ok r =>
        cases hre : r.IsError <;>
          simp [newHookFuncAndFireFunc, IndexNameFunc.call, hex, h404, hcr, hre]
    · simp [newHookFuncAndFireFunc, IndexNameFunc.call, hex, h404]

/-- C10, as the code has it: during construction the index-name resolver is
invoked exactly once when the existence check fails or answers with a status
other than 404, and exactly twice when it answers 404.  The name checked for
existence is the answer of the first invocation, the name created is the
answer of the second; under `NewElasticHook`, whose resolver always answers
the configured name, the two names are that name. -/
theorem resolver_invocations (client : elasticsearch.Client) (host : String)
    (levels : List logrus.Level) (indexFunc : IndexNameFunc) (fire : fireFunc) (w : World) :
    (∀ e, client.IndicesExists [indexFunc w.resolved] = .error e →
      (newHookFuncAndFireFunc client host levels indexFunc fire w).2
        = ⟨w.resolved + 1, w.calls ++ [Call.indicesExists [indexFunc w.resolved]]⟩) ∧
    (∀ resp, client.IndicesExists [indexFunc w.resolved] = .ok resp →
      resp.StatusCode ≠ http.StatusNotFound →
      (newHookFuncAndFireFunc client host levels indexFunc fire w).2
        = ⟨w.resolved + 1, w.calls ++ [Call.indicesExists [indexFunc w.resolved]]⟩) ∧
    (∀ resp, client.IndicesExists [indexFunc w.resolved] = .ok resp →
      resp.StatusCode = http.StatusNotFound →
      (newHookFuncAndFireFunc client host levels indexFunc fire w).2
        = ⟨w.resolved + 2, w.calls ++ [Call.indicesExists [indexFunc w.resolved],
            Call.indicesCreate (indexFunc (w.resolved + 1))]⟩) ∧
    (∀ (Marshal : message → Except GoError String) (index : String) (resp : esapi.Response),
      client.IndicesExists [index] = .ok resp → resp.StatusCode = http.StatusNotFound →
      (NewElasticHook Marshal client host levels index w).2
        = ⟨w.resolved + 2, w.calls ++ [Call.indicesExists [index],
            Call.indicesCreate index]⟩) := by
  refine ⟨?_, ?_, ?_, ?_⟩
  · intro e he
    rw [construction_world, he]
  · intro resp hr hne
    rw [construction_world, hr]
    simp [hne]
  · intro resp hr h404
    rw [construction_world, hr]
    simp [h404]
  · intro Marshal index resp hr h404
    unfold NewElasticHook
    rw [construction_world, hr]
    simp [h404]

theorem resolver_invocations_witness :
    (newHookFuncAndFireFunc (sample.client (sample.status 200) (sample.status 200)
        (sample.status 201)) "web-1" [] sample.rolling (syncFireFunc sample.Marshal)
        sample.world).2 = ⟨1, [Call.indicesExists ["logs-2024.12.31"]]⟩ :=
  (resolver_invocations (sample.client (sample.status 200) (sample.status 200)
        (sample.status 201)) "web-1" [] sample.rolling (syncFireFunc sample.Marshal)
        sample.world).2.1 ⟨200, ""⟩ rfl (by decide)

/-- C10 as stated fails: against a backend that answers the existence check
with 404 and the create with 200, construction invokes the resolver twice,
not once, and with a resolver whose name rolls over in between, the index
created is not the index checked. -/
theorem resolver_invoked_twice :
    (newHookFuncAndFireFunc (sample.client (sample.status 404) (sample.status 200)
        (sample.status 201)) "web-1" [] sample.rolling (syncFireFunc sample.Marshal)
        sample.world).2
      = ⟨2, [Call.indicesExists ["logs-2024.12.31"], Call.indicesCreate "logs-2025.01.01"]⟩ ∧
    (newHookFuncAndFireFunc (sample.client (sample.status 404) (sample.status 200)
        (sample.status 201)) "web-1" [] sample.rolling (syncFireFunc sample.Marshal)
        sample.world).2.resolved ≠ sample.world.resolved + 1 := by
  constructor
  · rfl
  · decide

/-! ## Delivery -/

/-- The default strategy reads the client, the host and the resolver of the
hook and nothing else. -/
theorem syncFireFunc_congr (Marshal : message → Except GoError String) (entry : logrus.Entry)
    (h1 h2 : HookFields) (w : World) (hc : h1.client = h2.client) (hh : h1.host = h2.host)
    (hi : h1.index = h2.index) :
    syncFireFunc Marshal entry h1 w = syncFireFunc Marshal entry h2 w := by
  simp only [syncFireFunc, createMessage, hc, hh, hi]

/-- C4: under the default strategy, when the document built from the record
does not serialize, `Fire` returns the serialization error and leaves the
world as it was: no request reaches the client and the index resolver is not
invoked. -/
theorem fire_marshal_failure (Marshal : message → Except GoError String) (hook : ElasticHook)
    (entry : logrus.Entry) (w : World) (e : GoError)
    (hdefault : hook.fireFunc = syncFireFunc Marshal)
    (hfail : Marshal (createMessage entry hook.toHookFields).1 = .error e) :
    (hook.Fire entry w).err = some e ∧ (hook.Fire entry w).world = w := by
  simp [ElasticHook.Fire, hdefault, syncFireFunc, hfail]

theorem fire_marshal_failure_witness :
    ((sample.hook (sample.client (sample.status 200) (sample.status 200)
        (sample.status 201))).Fire sample.badEntry sample.world).err
      = some ⟨"json: unsupported type: chan int"⟩ ∧
    ((sample.hook (sample.client (sample.status 200) (sample.status 200)
        (sample.status 201))).Fire sample.badEntry sample.world).world = sample.world :=
  fire_marshal_failure sample.Marshal (sample.hook _) sample.badEntry sample.world _ rfl rfl

/-- C5: under the default strategy, when the document serializes, `Fire`
returns the error of the write when the write fails at the transport and nil
whenever the backend answers, whatever the status; so it returns an error if
and only if the write fails at the transport. -/
theorem fire_error_iff_transport (Marshal : message → Except GoError String)
    (hook : ElasticHook) (entry : logrus.Entry) (w : World) (data : String)
    (hdefault : hook.fireFunc = syncFireFunc Marshal)
    (hdata : Marshal (createMessage entry hook.toHookFields).1 = .ok data) :
    (∀ e, hook.client.Index ⟨hook.index w.resolved, data⟩ = .error e →
      (hook.Fire entry w).err = some e) ∧
    (∀ res, hook.client.Index ⟨hook.index w.resolved, data⟩ = .ok res →
      (hook.Fire entry w).err = none) ∧
    ((hook.Fire entry w).err ≠ none ↔
      ∃ e, hook.client.Index ⟨hook.index w.resolved, data⟩ = .error e) := by
  simp only [ElasticHook.Fire, hdefault, syncFireFunc, hdata, IndexNameFunc.call]
  cases hres : hook.client.Index ⟨hook.index w.resolved, data⟩ with
  | error e => simp
  | ok res => simp

theorem fire_error_iff_transport_witness :
    ((sample.hook (sample.client (sample.status 200) (sample.status 200)
        (.ok ⟨429, "too many requests"⟩))).Fire sample.entry sample.world).err = none ∧
    ((sample.hook (sample.client (sample.status 200) (sample.status 200)
        (.error sample.refused))).Fire sample.entry sample.world).err
      = some sample.refused :=
  ⟨(fire_error_iff_transport sample.Marshal (sample.hook (sample.client (sample.status 200)
      (sample.status 200) (.ok ⟨429, "too many requests"⟩))) sample.entry sample.world
      "write failed" rfl rfl).2.1 ⟨429, "too many requests"⟩ rfl,
   (fire_error_iff_transport sample.Marshal (sample.hook (sample.client (sample.status 200)
      (sample.status 200) (.error sample.refused))) sample.entry sample.world
      "write failed" rfl rfl).1 sample.refused rfl⟩

/-! ## Cancel -/

/-- Cancelling a context that is cancelled changes nothing. -/
theorem cancel_cancel (c : context.Context) : c.cancel.cancel = c.cancel := by
  cases c with
  | mk b => cases b <;> rfl

/-- One or more calls of `Cancel` amount to one. -/
theorem Cancel_iterate (hook : ElasticHook) (n : Nat) :
    ElasticHook.Cancel^[n + 1] hook = hook.Cancel := by
  induction n with
  | zero => rfl
  | succ k ih =>
    rw [Function.iterate_succ_apply', ih]
    simp [ElasticHook.Cancel, cancel_cancel]

/-- Calls of `Cancel` touch the context only. -/
theorem Cancel_iterate_fields (hook : ElasticHook) (n : Nat) :
    (ElasticHook.Cancel^[n] hook).fireFunc = hook.fireFunc ∧
    (ElasticHook.Cancel^[n] hook).client = hook.client ∧
    (ElasticHook.Cancel^[n] hook).host = hook.host ∧
    (ElasticHook.Cancel^[n] hook).index = hook.index ∧
    (ElasticHook.Cancel^[n] hook).levels = hook.levels := by
  induction n with
  | zero => simp
  | succ k ih =>
    rw [Function.iterate_succ_apply']
    simpa [ElasticHook.Cancel] using ih

/-- C9: `Cancel` is idempotent and advisory.  Any number of calls, one or
more, leaves the hook as one call does (`Cancel` is a total function: it
cannot fail), and under the default strategy `Fire` after any number of
calls of `Cancel` returns what it returns on the hook never cancelled: the
same error, the same entry, the same requests to the backend. -/
theorem cancel_idempotent_advisory (Marshal : message → Except GoError String)
    (hook : ElasticHook) (entry : logrus.Entry) (w : World) (n : Nat)
    (hdefault : hook.fireFunc = syncFireFunc Marshal) :
    ElasticHook.Cancel^[n + 1] hook = hook.Cancel ∧
    (ElasticHook.Cancel^[n + 1] hook).ctx.cancelled = true ∧
    (ElasticHook.Cancel^[n] hook).Fire entry w = hook.Fire entry w := by
  refine ⟨Cancel_iterate hook n, ?_, ?_⟩
  · rw [Cancel_iterate]
    simp only [ElasticHook.Cancel, context.Context.cancel]
    split <;> simp_all
  · obtain ⟨hf, hc, hh, hi, _⟩ := Cancel_iterate_fields hook n
    simp only [ElasticHook.Fire, hf, hdefault]
    exact syncFireFunc_congr Marshal entry _ _ w hc hh hi

theorem cancel_idempotent_advisory_witness :
    (ElasticHook.Cancel^[3] (sample.hook (sample.client (sample.status 200)
        (sample.status 200) (sample.status 201)))).Fire sample.entry sample.world
      = (sample.hook (sample.client (sample.status 200) (sample.status 200)
        (sample.status 201))).Fire sample.entry sample.world :=
  (cancel_idempotent_advisory sample.Marshal (sample.hook _) sample.entry sample.world 3
    rfl).2.2

/-! ## Document construction -/

/-- After `m[k] = v`, the map holds `v` at `k`. -/
theorem lookup_assign_same (m : logrus.Fields) (k : String) (v : Value) :
    logrus.Fields.lookup (logrus.Fields.assign m k v) k = some v := by
  induction m with
  | nil => simp [logrus.Fields.assign, logrus.Fields.lookup]
  | cons kv rest ih =>
    obtain ⟨k1, v1⟩ := kv
    by_cases h : k1 = k
    · simp [logrus.Fields.assign, logrus.Fields.lookup, h]
    · simp [logrus.Fields.assign, logrus.Fields.lookup, h, ih]

/-- The assignment `m[k] = v` leaves every other key as it was. -/
theorem lookup_assign_other (m : logrus.Fields) (k j : String) (v : Value) (hne : j ≠ k) :
    logrus.Fields.lookup (logrus.Fields.assign m k v) j = logrus.Fields.lookup m j := by
  induction m with
  | nil =>
    have : ¬ k = j := fun h => hne h.symm
    simp [logrus.Fields.assign, logrus.Fields.lookup, this]
  | cons kv rest ih =>
    obtain ⟨k1, v1⟩ := kv
    by_cases h : k1 = k
    · have : ¬ k = j := fun h => hne h.symm
      have h1 : ¬ k1 = j := by rw [h]; exact this
      simp [logrus.Fields.assign, logrus.Fields.lookup, h, this]
    · by_cases h2 : k1 = j
      · subst h2
        simp [logrus.Fields.assign, logrus.Fields.lookup, hne]
      · simp [logrus.Fields.assign, logrus.Fields.lookup, h, h2, ih]

/-- What `createMessage` does to the payload: it replaces an error under the
reserved key by its text and leaves any other payload alone. -/
theorem createMessage_data (entry : logrus.Entry) (hook : HookFields) :
    (createMessage entry hook).2.Data =
      match logrus.Fields.lookup entry.Data logrus.ErrorKey with
      | some (Value.err err) =>
        logrus.Fields.assign entry.Data logrus.ErrorKey (Value.str err.Error)
      | _ => entry.Data := by
  unfold createMessage
  cases h : logrus.Fields.lookup entry.Data logrus.ErrorKey with
  | none => simp
  | some v => cases v <;> simp

/-- The document's `Data` is the entry's map, and `createMessage` writes to no
other field of the entry. -/
theorem createMessage_alias (entry : logrus.Entry) (hook : HookFields) :
    (createMessage entry hook).1.Data = (createMessage entry hook).2.Data ∧
    (createMessage entry hook).2.Time = entry.Time ∧
    (createMessage entry hook).2.Level = entry.Level ∧
    (createMessage entry hook).2.Message = entry.Message := by
  unfold createMessage
  cases h : logrus.Fields.lookup entry.Data logrus.ErrorKey with
  | none => simp
  | some v => cases v <;> simp

/-- C6: `createMessage` changes the record's payload map if and only if the
reserved error key is present and holds a non-nil value that is an error.
Then the document's data holds the error's `Error()` text under that key and
every other key is as in the input; in every other case (key absent, nil, or
a value that is no error) the document's data is the input payload. -/
theorem createMessage_error_key (entry : logrus.Entry) (hook : HookFields) :
    ((createMessage entry hook).2.Data ≠ entry.Data ↔
      ∃ err, logrus.Fields.lookup entry.Data logrus.ErrorKey = some (Value.err err)) ∧
    (∀ err, logrus.Fields.lookup entry.Data logrus.ErrorKey = some (Value.err err) →
      logrus.Fields.lookup (createMessage entry hook).1.Data logrus.ErrorKey
        = some (Value.str err.Error) ∧
      ∀ k, k ≠ logrus.ErrorKey →
        logrus.Fields.lookup (createMessage entry hook).1.Data k
          = logrus.Fields.lookup entry.Data k) ∧
    ((¬ ∃ err, logrus.Fields.lookup entry.Data logrus.ErrorKey = some (Value.err err)) →
      (createMessage entry hook).1.Data = entry.Data) := by
  rw [(createMessage_alias entry hook).1, createMessage_data]
  cases h : logrus.Fields.lookup entry.Data logrus.ErrorKey with
  | none => simp
  | some v =>
    cases v with
    | err e =>
      refine ⟨?_, ?_, ?_⟩
      · simp only [Option.some.injEq, Value.err.injEq, exists_eq', iff_true]
        intro heq
        have h1 := lookup_assign_same entry.Data logrus.ErrorKey (Value.str e.Error)
        rw [heq, h] at h1
        simp at h1
      · intro err herr
        simp only [Option.some.injEq, Value.err.injEq] at herr
        subst herr
        exact ⟨lookup_assign_same _ _ _, fun k hk => lookup_assign_other _ _ _ _ hk⟩
      · intro hno
        exact absurd ⟨e, rfl⟩ hno
    | _ => simp

theorem createMessage_error_key_witness :
    logrus.Fields.lookup (createMessage sample.entry (sample.hook (sample.client
        (sample.status 200) (sample.status 200) (sample.status 201))).toHookFields).1.Data
        logrus.ErrorKey = some (Value.str "disk full") ∧
    logrus.Fields.lookup (createMessage sample.entry (sample.hook (sample.client
        (sample.status 200) (sample.status 200) (sample.status 201))).toHookFields).1.Data
        "user" = some (Value.str "ada") ∧
    (createMessage sample.badEntry (sample.hook (sample.client
        (sample.status 200) (sample.status 200) (sample.status 201))).toHookFields).1.Data
      = sample.badEntry.Data :=
  ⟨((createMessage_error_key sample.entry _).2.1 ⟨"disk full"⟩ rfl).1,
   ((createMessage_error_key sample.entry _).2.1 ⟨"disk full"⟩ rfl).2 "user" (by decide),
   (createMessage_error_key sample.badEntry _).2.2 (by rintro ⟨err, h⟩; simp [sample.badEntry, logrus.Fields.lookup, logrus.ErrorKey] at h)⟩

/-- C7: the document's level is the record's severity name in upper case
(`warning` gives `WARNING`), its host is the hook's host and its message the
record's message, for every record and every hook: the accepted levels of the
hook play no part. -/
theorem createMessage_level_host_message (entry : logrus.Entry) (hook : HookFields) :
    (createMessage entry hook).1.Level = strings.ToUpper (logrus.Level.String entry.Level) ∧
    (createMessage entry hook).1.Host = hook.host ∧
    (createMessage entry hook).1.Message = entry.Message ∧
    (∀ levels, (createMessage entry { hook with levels := levels }).1
      = (createMessage entry hook).1) ∧
    strings.ToUpper (logrus.Level.String logrus.WarnLevel) = "WARNING" := by
  refine ⟨?_, ?_, ?_, ?_, by decide⟩
  all_goals
    unfold createMessage
    cases h : logrus.Fields.lookup entry.Data logrus.ErrorKey with
    | none => simp
    | some v => cases v <;> simp

/-! ## The timestamp

### Decimal digits -/

/-- The code of a digit character. -/
theorem digit_toNat (n : Nat) (h : n < 10) : (time.digit n).toNat = 48 + n := by
  interval_cases n <;> rfl

/-- A digit character passes `isDigit`. -/
theorem isDigit_digit (n : Nat) (h : n < 10) : time.isDigit (time.digit n) = true := by
  interval_cases n <;> rfl

/-- `fixedDigits w` writes `w` characters. -/
theorem fixedDigits_length (w u : Nat) : (time.fixedDigits w u).length = w := by
  induction w generalizing u with
  | zero => rfl
  | succ k ih => simp [time.fixedDigits, ih]

/-- `fixedDigits` writes digits only. -/
theorem fixedDigits_isDigit (w u : Nat) : ∀ c ∈ time.fixedDigits w u, time.isDigit c = true := by
  induction w generalizing u with
  | zero => simp [time.fixedDigits]
  | succ k ih =>
    intro c hc
    simp only [time.fixedDigits, List.mem_append, List.mem_singleton] at hc
    rcases hc with hc | hc
    · exact ih _ c hc
    · rw [hc]
      exact isDigit_digit _ (Nat.mod_lt _ (by decide))

/-- One more digit at the end: ten times the value, plus the digit. -/
theorem digitsVal_snoc (s : List Char) (c : Char) :
    time.digitsVal (s ++ [c]) = time.digitsVal s * 10 + (c.toNat - 48) := by
  simp [time.digitsVal, List.foldl_append]

/-- The digits `fixedDigits w u` writes denote `u` modulo `10 ^ w`. -/
theorem digitsVal_fixedDigits (w u : Nat) : time.digitsVal (time.fixedDigits w u) = u % 10 ^ w := by
  induction w generalizing u with
  | zero => simp [time.fixedDigits, time.digitsVal, Nat.mod_one]
  | succ k ih =>
    rw [time.fixedDigits, digitsVal_snoc, ih, digit_toNat _ (Nat.mod_lt _ (by decide))]
    have h1 : u % 10 ^ (k + 1) = u % 10 + 10 * (u / 10 % 10 ^ k) := by
      rw [pow_succ, mul_comm, Nat.mod_mul]
    omega

/-- Zero is written as zeros. -/
theorem fixedDigits_zero (w : Nat) : time.fixedDigits w 0 = List.replicate w '0' := by
  induction w with
  | zero => rfl
  | succ k ih =>
    rw [time.fixedDigits, Nat.zero_div, ih, List.replicate_succ']
    rfl

/-- A number below ten is written as zeros and its digit. -/
theorem fixedDigits_small (w u : Nat) (hu : u < 10) :
    time.fixedDigits (w + 1) u = List.replicate w '0' ++ [time.digit u] := by
  rw [time.fixedDigits, Nat.div_eq_of_lt hu, fixedDigits_zero, Nat.mod_eq_of_lt hu]

/-- The decimal form of `u`, padded with zeros to the width `w`, is
`fixedDigits w u` when `u` fits the width and the fuel suffices. -/
theorem decimal_pad (fuel : Nat) : ∀ w u : Nat, 0 < w → u < 10 ^ w → u < 10 ^ (fuel + 1) →
    List.replicate (w - (time.decimal fuel u).length) '0' ++ time.decimal fuel u
      = time.fixedDigits w u := by
  induction fuel with
  | zero =>
    intro w u hw _ hu
    obtain ⟨k, rfl⟩ : ∃ k, w = k + 1 := ⟨w - 1, by omega⟩
    have hu10 : u < 10 := by simpa using hu
    rw [fixedDigits_small _ _ hu10]
    simp [time.decimal, Nat.mod_eq_of_lt hu10]
  | succ f ih =>
    intro w u hw huw huf
    obtain ⟨k, rfl⟩ : ∃ k, w = k + 1 := ⟨w - 1, by omega⟩
    by_cases hu10 : u < 10
    · rw [fixedDigits_small _ _ hu10]
      simp [time.decimal, hu10]
    · have hk : 0 < k := by
        rcases Nat.eq_zero_or_pos k with h0 | h0
        · subst h0
          simp at huw
          omega
        · exact h0
      have h1 : u / 10 < 10 ^ k := by
        rw [pow_succ] at huw
        exact Nat.div_lt_of_lt_mul (by omega)
      have h2 : u / 10 < 10 ^ (f + 1) := by
        rw [pow_succ] at huf
        exact Nat.div_lt_of_lt_mul (by omega)
      have := ih k (u / 10) hk h1 h2
      rw [time.fixedDigits, ← this]
      simp [time.decimal, hu10]

/-- What `appendInt` writes for a natural number that fits the width. -/
theorem appendInt_natCast (w x : Nat) (hw : 0 < w) (hx : x < 10 ^ w) :
    time.appendInt (x : Int) w = time.fixedDigits w x := by
  have hfuel : x < 10 ^ (x + 1) :=
    lt_trans (Nat.lt_pow_self (by decide) x) (Nat.pow_lt_pow_right (by decide) (by omega))
  have := decimal_pad x w x hw hx hfuel
  simp only [time.appendInt, Int.natAbs_ofNat]
  have hneg : ¬ ((x : Int) < 0) := by omega
  simp [hneg, this]

/-! ### The fractional second -/

/-- `parseUint` reads back what `fixedDigits` wrote, within the range asked. -/
theorem parseUint_fixedDigits (w u lo hi : Nat) (hu : u < 10 ^ w) :
    time.parseUint (time.fixedDigits w u) lo hi = if u < lo ∨ hi < u then none else some u := by
  have hall : (time.fixedDigits w u).all time.isDigit = true :=
    List.all_eq_true.mpr (fixedDigits_isDigit w u)
  simp only [time.parseUint, hall, if_true, digitsVal_fixedDigits, Nat.mod_eq_of_lt hu]

/-- `trimZeros` removes zeros at the end and nothing else. -/
theorem trimZeros_append (l : List Char) :
    ∃ k, l = time.trimZeros l ++ List.replicate k '0' := by
  induction l with
  | nil => exact ⟨0, rfl⟩
  | cons c cs ih =>
    obtain ⟨k, hk⟩ := ih
    cases hr : time.trimZeros cs with
    | nil =>
      rw [hr, List.nil_append] at hk
      by_cases hc : c = '0'
      · refine ⟨k + 1, ?_⟩
        simp only [time.trimZeros, hr, hc, if_true, List.nil_append]
        rw [hk, List.replicate_succ]
      · refine ⟨k, ?_⟩
        simp only [time.trimZeros, hr, hc, if_false]
        rw [hk]
        rfl
    | cons r rs =>
      refine ⟨k, ?_⟩
      rw [hr] at hk
      simp only [time.trimZeros, hr]
      rw [hk]
      rfl

/-- Each zero at the end multiplies the value by ten. -/
theorem digitsVal_append_zeros (a : List Char) (k : Nat) :
    time.digitsVal (a ++ List.replicate k '0') = time.digitsVal a * 10 ^ k := by
  induction k with
  | zero => simp
  | succ n ih =>
    rw [List.replicate_succ', ← List.append_assoc, digitsVal_snoc, ih, pow_succ]
    have : ('0' : Char).toNat - 48 = 0 := rfl
    rw [this]
    ring

/-- The run of digits in front of a `Z` ends at the `Z`. -/
theorem takeWhile_isDigit_append (ds rest : List Char)
    (hds : ∀ c ∈ ds, time.isDigit c = true) :
    (ds ++ 'Z' :: rest).takeWhile time.isDigit = ds := by
  induction ds with
  | nil =>
    have : time.isDigit 'Z' = false := rfl
    simp [List.takeWhile, this]
  | cons c cs ih =>
    have hc : time.isDigit c = true := hds c (List.mem_cons_self _ _)
    have := ih (fun x hx => hds x (List.mem_cons_of_mem _ hx))
    simp [List.takeWhile, hc, this]

/-- `parseFraction` on a point, one to nine digits and a `Z`: the digits,
scaled to nanoseconds, and the `Z` left over. -/
theorem parseFraction_digits (d : Char) (ds : List Char)
    (hdig : ∀ c ∈ d :: ds, time.isDigit c = true) (hlen : (d :: ds).length ≤ 9) :
    time.parseFraction ('.' :: (d :: ds ++ ['Z']))
      = (time.digitsVal (d :: ds) * 10 ^ (9 - (d :: ds).length), ['Z']) := by
  have hd : time.isDigit d = true := hdig d (List.mem_cons_self _ _)
  have htw := takeWhile_isDigit_append (d :: ds) [] hdig
  have hcond : ('.' :: (d :: ds ++ ['Z'])).length ≥ 2 ∧
      ('.' :: (d :: ds ++ ['Z'])).get? 0 = some '.' ∧
      (('.' :: (d :: ds ++ ['Z'])).get? 1).any time.isDigit = true := by
    refine ⟨by simp, rfl, ?_⟩
    simp [hd]
  have hdrop1 : List.drop 1 ('.' :: (d :: ds ++ ['Z'])) = d :: ds ++ ['Z'] := rfl
  rw [time.parseFraction, if_pos hcond]
  simp only [hdrop1, htw, time.parseNanoseconds, time.slice]
  have hn : ¬ (1 + (d :: ds).length > 10) := by omega
  rw [if_neg hn]
  have e1 : 1 + (d :: ds).length - 1 = (d :: ds).length := by omega
  have e2 : 10 - (1 + (d :: ds).length) = 9 - (d :: ds).length := by omega
  have e3 : (d :: ds ++ ['Z']).take (d :: ds).length = d :: ds := List.take_left' rfl
  have e4 : List.drop (1 + (d :: ds).length) ('.' :: (d :: ds ++ ['Z'])) = ['Z'] := by
    rw [Nat.add_comm, List.drop_succ_cons]
    exact List.drop_left' rfl
  rw [e1, e2, e3, e4]

/-- The fraction `formatNano` writes is the fraction `parseFraction` reads. -/
theorem parseFraction_formatNano (nsec : Nat) (h : nsec < 10 ^ 9) :
    time.parseFraction (time.formatNano nsec ++ ['Z']) = (nsec, ['Z']) := by
  have happ : time.appendInt (nsec : Int) 9 = time.fixedDigits 9 nsec :=
    appendInt_natCast 9 nsec (by decide) h
  obtain ⟨k, hk⟩ := trimZeros_append (time.fixedDigits 9 nsec)
  have hval : nsec = time.digitsVal (time.trimZeros (time.fixedDigits 9 nsec)) * 10 ^ k := by
    have h1 := digitsVal_fixedDigits 9 nsec
    rw [Nat.mod_eq_of_lt h] at h1
    rw [← digitsVal_append_zeros, ← hk, h1]
  have hlen : (time.trimZeros (time.fixedDigits 9 nsec)).length + k = 9 := by
    have h1 := congrArg List.length hk
    rw [fixedDigits_length, List.length_append, List.length_replicate] at h1
    omega
  have hdig : ∀ c ∈ time.trimZeros (time.fixedDigits 9 nsec), time.isDigit c = true := by
    intro c hc
    apply fixedDigits_isDigit 9 nsec
    rw [hk]
    exact List.mem_append_left _ hc
  simp only [time.formatNano, happ]
  cases htd : time.trimZeros (time.fixedDigits 9 nsec) with
  | nil =>
    rw [htd] at hval
    have : nsec = 0 := by simpa [time.digitsVal] using hval
    subst this
    simp [time.parseFraction]
  | cons d ds =>
    rw [htd] at hval hlen hdig
    have hk9 : 9 - (d :: ds).length = k := by omega
    have := parseFraction_digits d ds hdig (by omega)
    rw [hk9, ← hval] at this
    exact this

/-! ### The calendar -/

/-- `isLeap` as a proposition. -/
theorem isLeap_iff (year : Int) :
    time.isLeap year = true ↔ (year % 4 = 0 ∧ (year % 100 ≠ 0 ∨ year % 400 = 0)) := by
  simp [time.isLeap]

/-- The cycles `absYday` cuts a day count into: 400-year cycles, at most three
100-year cycles, at most 24 4-year cycles, at most three years and a day of
the year, which is the 366th only in a leap year. -/
theorem absYday_decomp (days : Int) :
    ∃ n400 n100 n4 n1 d : Int, 0 ≤ n100 ∧ n100 ≤ 3 ∧ 0 ≤ n4 ∧ n4 ≤ 24 ∧ 0 ≤ n1 ∧ n1 ≤ 3 ∧
      0 ≤ d ∧ (d ≤ 364 ∨ (d = 365 ∧ n1 = 3 ∧ (n4 ≠ 24 ∨ n100 = 3))) ∧
      days = 146097 * n400 + 36524 * n100 + 1461 * n4 + 365 * n1 + d ∧
      time.absYday days = (400 * n400 + 100 * n100 + 4 * n4 + n1 + 1, d.toNat) := by
  obtain ⟨n400, hn400⟩ : ∃ x, x = days / 146097 := ⟨_, rfl⟩
  obtain ⟨d0, hd0⟩ : ∃ x, x = days - 146097 * n400 := ⟨_, rfl⟩
  obtain ⟨q100, hq100⟩ : ∃ x, x = d0 / 36524 := ⟨_, rfl⟩
  obtain ⟨n100, hn100⟩ : ∃ x, x = q100 - q100 / 4 := ⟨_, rfl⟩
  obtain ⟨d1, hd1⟩ : ∃ x, x = d0 - 36524 * n100 := ⟨_, rfl⟩
  obtain ⟨n4, hn4⟩ : ∃ x, x = d1 / 1461 := ⟨_, rfl⟩
  obtain ⟨d2, hd2⟩ : ∃ x, x = d1 - 1461 * n4 := ⟨_, rfl⟩
  obtain ⟨q1, hq1⟩ : ∃ x, x = d2 / 365 := ⟨_, rfl⟩
  obtain ⟨n1, hn1⟩ : ∃ x, x = q1 - q1 / 4 := ⟨_, rfl⟩
  obtain ⟨d3, hd3⟩ : ∃ x, x = d2 - 365 * n1 := ⟨_, rfl⟩
  have b0 : 0 ≤ d0 ∧ d0 ≤ 146096 := by omega
  have bq : 0 ≤ q100 ∧ q100 ≤ 4 := by omega
  have bn100 : 0 ≤ n100 ∧ n100 ≤ 3 := by omega
  have b1 : 0 ≤ d1 ∧ d1 ≤ 36524 ∧ (d1 = 36524 → n100 = 3) := by omega
  have bn4 : 0 ≤ n4 ∧ n4 ≤ 24 := by omega
  have b2 : 0 ≤ d2 ∧ d2 ≤ 1460 ∧ (d2 = 1460 → n4 = 24 → n100 = 3) := by omega
  have bq1 : 0 ≤ q1 ∧ q1 ≤ 4 := by omega
  have bn1 : 0 ≤ n1 ∧ n1 ≤ 3 := by omega
  have b3 : 0 ≤ d3 ∧ (d3 ≤ 364 ∨ (d3 = 365 ∧ n1 = 3 ∧ d2 = 1460)) := by omega
  refine ⟨n400, n100, n4, n1, d3, by omega, by omega, by omega, by omega, by omega, by omega,
    by omega, ?_, by omega, ?_⟩
  · rcases b3.2 with h | ⟨h1, h2, h3⟩
    · exact Or.inl h
    · refine Or.inr ⟨h1, h2, ?_⟩
      by_cases h24 : n4 = 24
      · exact Or.inr (b2.2.2 h3 h24)
      · exact Or.inl h24
  · simp only [time.absYday]
    rw [← hn400, ← hd0, ← hq100, ← hn100, ← hd1, ← hn4, ← hd2, ← hq1, ← hn1, ← hd3]

/-- `absYday` inverts `daysSinceEpoch`: the year's first day plus the day of year is the day. -/
theorem absYday_spec (days : Int) :
    time.daysSinceEpoch (time.absYday days).1 + (time.absYday days).2 = days ∧
    (time.absYday days).2 < 366 ∧
    (time.isLeap (time.absYday days).1 = false → (time.absYday days).2 < 365) := by
  obtain ⟨n400, n100, n4, n1, d, h1, h2, h3, h4, h5, h6, h7, h8, h9, h10⟩ := absYday_decomp days
  rw [h10]
  simp only
  have hY : time.daysSinceEpoch (400 * n400 + 100 * n100 + 4 * n4 + n1 + 1)
      = 146097 * n400 + 36524 * n100 + 1461 * n4 + 365 * n1 := by
    simp only [time.daysSinceEpoch]
    have e1 : (400 * n400 + 100 * n100 + 4 * n4 + n1 + 1 - 1) / 400 = n400 := by omega
    rw [e1]
    have e2 : (400 * n400 + 100 * n100 + 4 * n4 + n1 + 1 - 1 - 400 * n400) / 100 = n100 := by
      omega
    rw [e2]
    have e3 : (400 * n400 + 100 * n100 + 4 * n4 + n1 + 1 - 1 - 400 * n400 - 100 * n100) / 4
        = n4 := by omega
    rw [e3]
    omega
  refine ⟨by rw [hY]; omega, by omega, ?_⟩
  intro hleap
  have hl := isLeap_iff (400 * n400 + 100 * n100 + 4 * n4 + n1 + 1)
  rw [hleap] at hl
  simp only [Bool.false_eq_true, false_iff, not_and, not_or, not_not] at hl
  rcases h8 with h | ⟨hd, hn1, hrest⟩
  · omega
  · exfalso
    subst hn1
    have c1 : (400 * n400 + 100 * n100 + 4 * n4 + 3 + 1) % 4 = 0 := by omega
    have c2 := hl c1
    rcases hrest with h24 | h100
    · omega
    · omega

set_option maxRecDepth 100000 in
/-- `monthDay` gives a month in 1..12 and a day of that month, and the days
before them add up to the day of the year; checked on every day of a leap
year and of a common year. -/
theorem monthDay_spec : ∀ leap : Bool, ∀ yday < 366, (leap = false → yday < 365) →
    1 ≤ (time.monthDay leap yday).1 ∧ (time.monthDay leap yday).1 ≤ 12 ∧
    1 ≤ (time.monthDay leap yday).2 ∧
    (time.monthDay leap yday).2 ≤ (if (time.monthDay leap yday).1 = 2 ∧ leap = true then 29
      else time.daysBefore (time.monthDay leap yday).1 - time.daysBefore ((time.monthDay leap yday).1 - 1)) ∧
    time.daysBefore ((time.monthDay leap yday).1 - 1)
      + (if leap = true ∧ (time.monthDay leap yday).1 ≥ 3 then 1 else 0)
      + ((time.monthDay leap yday).2 - 1) = yday := by
  decide

/-! ### Reading back what was written -/

/-- The zone `Z` is UTC. -/
theorem parseZone_Z (t : Int) : time.parseZone t ['Z'] = some ⟨t, 0⟩ := by
  simp [time.parseZone]

/-- Reading a text of the shape `YYYY-MM-DDThh:mm:ss` followed by `rest`, all
fields in range. -/
theorem parseRFC3339_fields (Y M D h mi s : Nat) (rest : List Char)
    (hY : Y ≤ 9999) (hM1 : 1 ≤ M) (hM : M ≤ 12) (hD1 : 1 ≤ D) (hD : D ≤ time.daysIn M Y)
    (hD99 : D < 100)
    (hh : h ≤ 23) (hmi : mi ≤ 59) (hs : s ≤ 59) :
    time.parseRFC3339 (time.fixedDigits 4 Y ++ ['-'] ++ time.fixedDigits 2 M ++ ['-']
        ++ time.fixedDigits 2 D ++ ['T'] ++ time.fixedDigits 2 h ++ [':']
        ++ time.fixedDigits 2 mi ++ [':'] ++ time.fixedDigits 2 s ++ rest)
      = time.parseZone (time.Date Y M D h mi s (time.parseFraction rest).1)
          (time.parseFraction rest).2 := by
  obtain ⟨y3, y2, y1, y0, eY⟩ : ∃ a b c d, time.fixedDigits 4 Y = [a, b, c, d] :=
    ⟨_, _, _, _, rfl⟩
  obtain ⟨m1, m0, eM⟩ : ∃ a b, time.fixedDigits 2 M = [a, b] := ⟨_, _, rfl⟩
  obtain ⟨d1, d0, eD⟩ : ∃ a b, time.fixedDigits 2 D = [a, b] := ⟨_, _, rfl⟩
  obtain ⟨h1, h0, eh⟩ : ∃ a b, time.fixedDigits 2 h = [a, b] := ⟨_, _, rfl⟩
  obtain ⟨i1, i0, ei⟩ : ∃ a b, time.fixedDigits 2 mi = [a, b] := ⟨_, _, rfl⟩
  obtain ⟨s1, s0, es⟩ : ∃ a b, time.fixedDigits 2 s = [a, b] := ⟨_, _, rfl⟩
  have pY := parseUint_fixedDigits 4 Y 0 9999 (by omega)
  have pM := parseUint_fixedDigits 2 M 1 12 (by omega)
  have pD := parseUint_fixedDigits 2 D 1 (time.daysIn M Y) (by omega)
  have ph := parseUint_fixedDigits 2 h 0 23 (by omega)
  have pi := parseUint_fixedDigits 2 mi 0 59 (by omega)
  have ps := parseUint_fixedDigits 2 s 0 59 (by omega)
  rw [if_neg (by omega)] at pY pM pD ph pi ps
  rw [eY] at pY ⊢
  rw [eM] at pM ⊢
  rw [eD] at pD ⊢
  rw [eh] at ph ⊢
  rw [ei] at pi ⊢
  rw [es] at ps ⊢
  simp only [List.cons_append, List.nil_append, List.append_assoc]
  have hlen : ¬ ((y3 :: y2 :: y1 :: y0 :: '-' :: m1 :: m0 :: '-' :: d1 :: d0 :: 'T' :: h1 :: h0
      :: ':' :: i1 :: i0 :: ':' :: s1 :: s0 :: rest).length < 19) := by
    simp only [List.length_cons]
    omega
  rw [time.parseRFC3339, if_neg hlen]
  have q1 : time.slice (y3 :: y2 :: y1 :: y0 :: '-' :: m1 :: m0 :: '-' :: d1 :: d0 :: 'T' :: h1
      :: h0 :: ':' :: i1 :: i0 :: ':' :: s1 :: s0 :: rest) 0 4 = [y3, y2, y1, y0] := rfl
  have q2 : time.slice (y3 :: y2 :: y1 :: y0 :: '-' :: m1 :: m0 :: '-' :: d1 :: d0 :: 'T' :: h1
      :: h0 :: ':' :: i1 :: i0 :: ':' :: s1 :: s0 :: rest) 5 7 = [m1, m0] := rfl
  have q3 : time.slice (y3 :: y2 :: y1 :: y0 :: '-' :: m1 :: m0 :: '-' :: d1 :: d0 :: 'T' :: h1
      :: h0 :: ':' :: i1 :: i0 :: ':' :: s1 :: s0 :: rest) 8 10 = [d1, d0] := rfl
  have q4 : time.slice (y3 :: y2 :: y1 :: y0 :: '-' :: m1 :: m0 :: '-' :: d1 :: d0 :: 'T' :: h1
      :: h0 :: ':' :: i1 :: i0 :: ':' :: s1 :: s0 :: rest) 11 13 = [h1, h0] := rfl
  have q5 : time.slice (y3 :: y2 :: y1 :: y0 :: '-' :: m1 :: m0 :: '-' :: d1 :: d0 :: 'T' :: h1
      :: h0 :: ':' :: i1 :: i0 :: ':' :: s1 :: s0 :: rest) 14 16 = [i1, i0] := rfl
  have q6 : time.slice (y3 :: y2 :: y1 :: y0 :: '-' :: m1 :: m0 :: '-' :: d1 :: d0 :: 'T' :: h1
      :: h0 :: ':' :: i1 :: i0 :: ':' :: s1 :: s0 :: rest) 17 19 = [s1, s0] := rfl
  have q7 : List.drop 19 (y3 :: y2 :: y1 :: y0 :: '-' :: m1 :: m0 :: '-' :: d1 :: d0 :: 'T' :: h1
      :: h0 :: ':' :: i1 :: i0 :: ':' :: s1 :: s0 :: rest) = rest := rfl
  rw [q1, q2, q3, q4, q5, q6, q7, pY, pM]
  simp only [pD, ph, pi, ps]
  simp

/-- Reading back the text written for an instant whose year, in UTC, lies in
0..9999 gives the instant, located in UTC. -/
theorem parseRFC3339_appendFormat (t : time.Time)
    (hy0 : 0 ≤ t.UTC.Year) (hy1 : t.UTC.Year ≤ 9999) :
    time.parseRFC3339 t.UTC.appendFormatRFC3339Nano = some ⟨t.unixNano, 0⟩ := by
  obtain ⟨ns, off⟩ := t
  simp only [time.Time.UTC, time.Time.Year, time.Time.appendFormatRFC3339Nano, time.absDate,
    add_zero, if_true] at *
  obtain ⟨hds, hyd, hnl⟩ := absYday_spec (ns / 1000000000 / 86400 + 719162)
  generalize hy : (time.absYday (ns / 1000000000 / 86400 + 719162)).1 = y at *
  generalize hyday : (time.absYday (ns / 1000000000 / 86400 + 719162)).2 = yd at *
  obtain ⟨hm1, hm12, hd1, hdin, hsum⟩ := monthDay_spec (time.isLeap y) yd hyd hnl
  generalize hm : (time.monthDay (time.isLeap y) yd).1 = m at *
  generalize hd : (time.monthDay (time.isLeap y) yd).2 = d at *
  obtain ⟨Y, rfl⟩ : ∃ Y : Nat, y = (Y : Int) := ⟨y.toNat, by omega⟩
  have hY : Y ≤ 9999 := by omega
  have hdaysIn : d ≤ time.daysIn m Y := hdin
  have hd31 : time.daysIn m (Y : Int) ≤ 31 := by
    unfold time.daysIn
    split
    · omega
    · interval_cases m <;> decide
  obtain ⟨clock, hclock⟩ : ∃ c : Nat, (c : Int) = ns / 1000000000 % 86400 :=
    ⟨(ns / 1000000000 % 86400).toNat, by omega⟩
  obtain ⟨nsec, hnsec⟩ : ∃ c : Nat, (c : Int) = ns % 1000000000 :=
    ⟨(ns % 1000000000).toNat, by omega⟩
  rw [← hclock, ← hnsec]
  simp only [Int.toNat_ofNat]
  have hc : clock < 86400 := by omega
  have hn : nsec < 10 ^ 9 := by norm_num; omega
  rw [appendInt_natCast 4 Y (by decide) (by norm_num; omega),
    appendInt_natCast 2 m (by decide) (by norm_num; omega),
    appendInt_natCast 2 d (by decide) (by norm_num; omega),
    appendInt_natCast 2 (clock / 3600) (by decide) (by norm_num; omega),
    appendInt_natCast 2 (clock % 3600 / 60) (by decide) (by norm_num; omega),
    appendInt_natCast 2 (clock % 60) (by decide) (by norm_num; omega)]
  rw [List.append_assoc _ (time.formatNano nsec) ['Z']]
  rw [parseRFC3339_fields Y m d (clock / 3600) (clock % 3600 / 60) (clock % 60) _ hY hm1 hm12 hd1
    hdaysIn (by omega) (by omega) (by omega) (by omega)]
  rw [parseFraction_formatNano nsec hn, parseZone_Z]
  congr 1
  simp only [time.Date]
  have hlp : ((if time.isLeap (Y : Int) = true ∧ m ≥ 3 then 1 else 0 : Nat) : Int)
      = (if time.isLeap (Y : Int) = true ∧ m ≥ 3 then 1 else 0 : Int) := by
    split <;> rfl
  have hsum' : (time.daysBefore (m - 1) : Int)
      + (if time.isLeap (Y : Int) = true ∧ m ≥ 3 then 1 else 0 : Int) + ((d - 1 : Nat) : Int)
      = (yd : Int) := by
    rw [← hlp]
    exact_mod_cast hsum
  have hclk : ((clock / 3600 * 3600 + clock % 3600 / 60 * 60 + clock % 60 : Nat) : Int)
      = (clock : Int) := by
    have : clock / 3600 * 3600 + clock % 3600 / 60 * 60 + clock % 60 = clock := by omega
    rw [this]
  rw [hclk, time.Time.mk.injEq]
  refine ⟨?_, rfl⟩
  generalize (if time.isLeap (Y : Int) = true ∧ m ≥ 3 then 1 else 0 : Int) = lp at hsum' ⊢
  omega

/-- The instants whose year in UTC lies in 0..9999 are those from
0000-01-01T00:00:00Z up to, and not including, 10000-01-01T00:00:00Z. -/
theorem Year_range_iff (t : time.Time) :
    (0 ≤ t.UTC.Year ∧ t.UTC.Year ≤ 9999) ↔
      (-62167219200000000000 ≤ t.unixNano ∧ t.unixNano < 253402300800000000000) := by
  obtain ⟨ns, off⟩ := t
  simp only [time.Time.UTC, time.Time.Year, time.absDate, add_zero]
  obtain ⟨n400, n100, n4, n1, d, h1, h2, h3, h4, h5, h6, h7, h8, h9, h10⟩ :=
    absYday_decomp (ns / 1000000000 / 86400 + 719162)
  rw [h10]
  simp only
  constructor
  · rintro ⟨ha, hb⟩
    have hn : -1 ≤ n400 ∧ n400 ≤ 24 := by omega
    have hdays : -366 ≤ ns / 1000000000 / 86400 + 719162 ∧
        ns / 1000000000 / 86400 + 719162 < 3652059 := by
      rcases h8 with h | ⟨hd, hn1, hrest⟩ <;> omega
    omega
  · rintro ⟨ha, hb⟩
    have hdays : -366 ≤ ns / 1000000000 / 86400 + 719162 ∧
        ns / 1000000000 / 86400 + 719162 < 3652059 := by omega
    have hn : -1 ≤ n400 ∧ n400 ≤ 24 := by
      rcases h8 with h | ⟨hd, hn1, hrest⟩ <;> omega
    rcases h8 with h | ⟨hd, hn1, hrest⟩ <;> omega

/-- C8, as the code has it: the document's `@timestamp` is the RFC3339Nano
text of the record's instant in UTC, so two records of the same instant get
the same text whatever their zone offsets; and when the year of the instant
in UTC lies in 0..9999, that is from 0000-01-01T00:00:00Z to
9999-12-31T23:59:59.999999999Z, reading the text back as RFC3339Nano gives
that instant to the nanosecond. -/
theorem timestamp_utc_roundtrip (entry : logrus.Entry) (hook : HookFields) :
    (createMessage entry hook).1.Timestamp = entry.Time.UTC.FormatRFC3339Nano ∧
    (∀ (entry2 : logrus.Entry) (hook2 : HookFields),
      entry2.Time.unixNano = entry.Time.unixNano →
      (createMessage entry2 hook2).1.Timestamp = (createMessage entry hook).1.Timestamp) ∧
    (0 ≤ entry.Time.UTC.Year → entry.Time.UTC.Year ≤ 9999 →
      time.ParseRFC3339Nano (createMessage entry hook).1.Timestamp
        = some ⟨entry.Time.unixNano, 0⟩) ∧
    (-62167219200000000000 ≤ entry.Time.unixNano →
      entry.Time.unixNano < 253402300800000000000 →
      time.ParseRFC3339Nano (createMessage entry hook).1.Timestamp
        = some ⟨entry.Time.unixNano, 0⟩) := by
  have key : ∀ (e : logrus.Entry) (h : HookFields),
      (createMessage e h).1.Timestamp = e.Time.UTC.FormatRFC3339Nano := by
    intro e h
    unfold createMessage
    cases hl : logrus.Fields.lookup e.Data logrus.ErrorKey with
    | none => simp
    | some v => cases v <;> simp
  have back : 0 ≤ entry.Time.UTC.Year → entry.Time.UTC.Year ≤ 9999 →
      time.ParseRFC3339Nano (createMessage entry hook).1.Timestamp
        = some ⟨entry.Time.unixNano, 0⟩ := by
    intro hy0 hy1
    rw [key]
    simp only [time.ParseRFC3339Nano, time.Time.FormatRFC3339Nano,
      parseRFC3339_appendFormat entry.Time hy0 hy1]
  refine ⟨key entry hook, ?_, back, ?_⟩
  · intro entry2 hook2 hsame
    rw [key, key]
    have : entry2.Time.UTC = entry.Time.UTC := by
      simp [time.Time.UTC, hsame]
    rw [this]
  · intro hlo hhi
    obtain ⟨hy0, hy1⟩ := (Year_range_iff entry.Time).mpr ⟨hlo, hhi⟩
    exact back hy0 hy1

theorem timestamp_utc_roundtrip_witness :
    (0 ≤ sample.entry.Time.UTC.Year ∧ sample.entry.Time.UTC.Year ≤ 9999) ∧
    time.ParseRFC3339Nano (createMessage sample.entry (sample.hook (sample.client
        (sample.status 200) (sample.status 200) (sample.status 201))).toHookFields).1.Timestamp
      = some ⟨1700000000123456000, 0⟩ :=
  ⟨by decide, (timestamp_utc_roundtrip sample.entry _).2.2.1 (by decide) (by decide)⟩

/-- C8 as stated fails: the record at 10000-01-01T00:00:00Z, the first
instant of the year 10000, gets a timestamp with a year of five digits, and
reading it back as RFC3339Nano is a parse error, not the instant. -/
theorem timestamp_year_10000 :
    sample.farEntry.Time.UTC.Year = 10000 ∧
    (createMessage sample.farEntry (sample.hook (sample.client (sample.status 200)
        (sample.status 200) (sample.status 201))).toHookFields).1.Timestamp
      = "10000-01-01T00:00:00Z" ∧
    time.ParseRFC3339Nano (createMessage sample.farEntry (sample.hook (sample.client
        (sample.status 200) (sample.status 200) (sample.status 201))).toHookFields).1.Timestamp
      = none := by
  refine ⟨?_, ?_, ?_⟩ <;> decide

end eslogrus
